import Mathlib

/-
Verification of the on-demand summarized block-file cache
(ODPCMAliasBlockFile).  The data model and operations are embedded
shallowly: the summary statistics become exact arithmetic over Int and
Rat, the two-resolution summary buffers become lists of per-chunk
statistics, and the block file becomes a record whose fields mirror the
member variables of the C++ class.  Machine floating point is modelled
by exact rationals, so equalities below are the exact-arithmetic
counterparts of the float computations.
-/

namespace ODPCM

/-- Statistics of a run of samples: minimum, maximum, and the sum of
squares.  The design combines RMS by sum-of-squares accumulation (never
by averaging RMS values), so together with the sample count the
`sumSq` field determines the RMS exactly. -/
structure Stats where
  smin : Int
  smax : Int
  sumSq : Int
deriving DecidableEq, Repr

/-- Statistics of one sample. -/
def singleStat (x : Int) : Stats :=
  ⟨x, x, x * x⟩

/-- Combines the statistics of two consecutive runs: min of mins, max of
maxes, and sum-of-squares accumulation.  `none` stands for the
statistics of an empty run. -/
def ocombine : Option Stats → Option Stats → Option Stats
  | none, b => b
  | some a, none => some a
  | some a, some b => some ⟨min a.smin b.smin, max a.smax b.smax, a.sumSq + b.sumSq⟩

/-- Aggregates a list of per-chunk statistics into the statistics of the
concatenated run. -/
def aggregate (l : List (Option Stats)) : Option Stats :=
  l.foldr ocombine none

/-- Statistics of a list of raw samples. -/
def statsOf (l : List Int) : Option Stats :=
  aggregate (l.map (fun x => some (singleStat x)))

theorem ocombine_none_right (a : Option Stats) : ocombine a none = a := by
  cases a <;> rfl

theorem ocombine_assoc (a b c : Option Stats) :
    ocombine (ocombine a b) c = ocombine a (ocombine b c) := by
  cases a <;> cases b <;> cases c <;>
    simp [ocombine, min_assoc, max_assoc, Int.add_assoc]

@[simp] theorem aggregate_nil : aggregate [] = none := rfl

@[simp] theorem aggregate_cons (a : Option Stats) (l : List (Option Stats)) :
    aggregate (a :: l) = ocombine a (aggregate l) := rfl

theorem aggregate_append (a b : List (Option Stats)) :
    aggregate (a ++ b) = ocombine (aggregate a) (aggregate b) := by
  induction a with
  | nil => simp [ocombine]
  | cons x xs ih => simp [ih, ocombine_assoc]

@[simp] theorem statsOf_nil : statsOf [] = none := rfl

theorem statsOf_append (a b : List Int) :
    statsOf (a ++ b) = ocombine (statsOf a) (statsOf b) := by
  simp only [statsOf, List.map_append, aggregate_append]

/-- Aggregating the image of a statistics-valued, concatenation-to-
ocombine homomorphism over a list of chunks computes the homomorphism of
the flattened list. -/
theorem aggregate_map_hom {α : Type} (f : List α → Option Stats)
    (h0 : f [] = none)
    (hA : ∀ a b : List α, f (a ++ b) = ocombine (f a) (f b))
    (L : List (List α)) :
    aggregate (L.map f) = f L.flatten := by
  induction L with
  | nil => simp [h0]
  | cons c L ih => simp [hA, ih]

theorem aggregate_map_statsOf (L : List (List Int)) :
    aggregate (L.map statsOf) = statsOf L.flatten :=
  aggregate_map_hom statsOf statsOf_nil statsOf_append L

theorem aggregate_map_aggregate (L : List (List (Option Stats))) :
    aggregate (L.map aggregate) = aggregate L.flatten :=
  aggregate_map_hom aggregate aggregate_nil aggregate_append L

/-- Splits a list into consecutive chunks of `n` elements (the last
chunk may be shorter).  The fuel argument makes the recursion
structural, so that the function evaluates inside the kernel. -/
def chunksOfAux {α : Type} (n : Nat) : Nat → List α → List (List α)
  | 0, _ => []
  | _ + 1, [] => []
  | fuel + 1, x :: xs => (x :: xs.take (n - 1)) :: chunksOfAux n fuel (xs.drop (n - 1))

/-- Splits a list into consecutive chunks of `n` elements; the last
chunk may be shorter.  All chunks are nonempty. -/
def chunksOf {α : Type} (n : Nat) (l : List α) : List (List α) :=
  chunksOfAux n l.length l

theorem chunksOfAux_fuel {α : Type} (n : Nat) :
    ∀ (f1 f2 : Nat) (l : List α), l.length ≤ f1 → l.length ≤ f2 →
      chunksOfAux n f1 l = chunksOfAux n f2 l := by
  intro f1
  induction f1 with
  | zero =>
    intro f2 l h1 _
    have hl : l = [] := List.eq_nil_of_length_eq_zero (Nat.le_zero.mp h1)
    subst hl
    cases f2 <;> rfl
  | succ f ih =>
    intro f2 l h1 h2
    cases l with
    | nil => cases f2 <;> rfl
    | cons x xs =>
      cases f2 with
      | zero => simp at h2
      | succ f2 =>
        simp only [chunksOfAux]
        congr 1
        apply ih
        · simp only [List.length_drop]
          simp only [List.length_cons] at h1
          omega
        · simp only [List.length_drop]
          simp only [List.length_cons] at h2
          omega

@[simp] theorem chunksOf_nil {α : Type} (n : Nat) : chunksOf n ([] : List α) = [] := rfl

theorem chunksOf_cons {α : Type} (n : Nat) (x : α) (xs : List α) :
    chunksOf n (x :: xs) = (x :: xs.take (n - 1)) :: chunksOf n (xs.drop (n - 1)) := by
  simp only [chunksOf, List.length_cons, chunksOfAux]
  congr 1
  apply chunksOfAux_fuel
  · simp only [List.length_drop]; omega
  · exact le_rfl

theorem chunksOf_flatten {α : Type} (n : Nat) (hn : 0 < n) (l : List α) :
    (chunksOf n l).flatten = l := by
  have master : ∀ (fuel : Nat) (l : List α), l.length ≤ fuel →
      (chunksOf n l).flatten = l := by
    intro fuel
    induction fuel with
    | zero =>
      intro l h
      have hl : l = [] := List.eq_nil_of_length_eq_zero (Nat.le_zero.mp h)
      subst hl; rfl
    | succ f ih =>
      intro l h
      cases l with
      | nil => rfl
      | cons x xs =>
        rw [chunksOf_cons, List.flatten_cons]
        rw [ih (xs.drop (n - 1))]
        · simp [List.take_append_drop]
        · simp only [List.length_drop]
          simp only [List.length_cons] at h
          omega
  exact master l.length l le_rfl

theorem chunksOf_drop_one {α : Type} (n : Nat) (hn : 0 < n) (l : List α) :
    (chunksOf n l).drop 1 = chunksOf n (l.drop n) := by
  cases l with
  | nil => simp
  | cons x xs =>
    rw [chunksOf_cons]
    obtain ⟨m, rfl⟩ : ∃ m, n = m + 1 := ⟨n - 1, by omega⟩
    simp

theorem chunksOf_drop {α : Type} (n : Nat) (hn : 0 < n) (i : Nat) (l : List α) :
    (chunksOf n l).drop i = chunksOf n (l.drop (n * i)) := by
  induction i generalizing l with
  | zero => simp
  | succ i ih =>
    have h1 : (chunksOf n l).drop (i + 1) = ((chunksOf n l).drop i).drop 1 := by
      rw [List.drop_drop]
    rw [h1, ih, chunksOf_drop_one n hn, List.drop_drop]
    congr 1

theorem chunksOf_take_flatten {α : Type} (n : Nat) (hn : 0 < n) :
    ∀ (k : Nat) (l : List α), ((chunksOf n l).take k).flatten = l.take (n * k) := by
  intro k
  induction k with
  | zero => simp
  | succ k ih =>
    intro l
    cases l with
    | nil => simp
    | cons x xs =>
      obtain ⟨m, rfl⟩ : ∃ m, n = m + 1 := ⟨n - 1, by omega⟩
      rw [chunksOf_cons]
      simp only [Nat.add_sub_cancel, List.take_succ_cons, List.flatten_cons]
      rw [ih]
      have harith : (m + 1) * (k + 1) = (m + (m + 1) * k) + 1 := by ring
      rw [harith, List.take_succ_cons, List.cons_append, ← List.take_add]

theorem chunksOf_take {α : Type} (n : Nat) (hn : 0 < n) :
    ∀ (k : Nat) (l : List α), chunksOf n (l.take (n * k)) = (chunksOf n l).take k := by
  intro k
  induction k with
  | zero => simp
  | succ k ih =>
    intro l
    cases l with
    | nil => simp
    | cons x xs =>
      obtain ⟨m, rfl⟩ : ∃ m, n = m + 1 := ⟨n - 1, by omega⟩
      have harith : (m + 1) * (k + 1) = ((m + 1) * k + m) + 1 := by ring
      have ht : min m ((m + 1) * k + m) = m := by omega
      have hd : (m + 1) * k + m - m = (m + 1) * k := by omega
      rw [harith, List.take_succ_cons, chunksOf_cons, chunksOf_cons, List.take_succ_cons]
      simp only [Nat.add_sub_cancel]
      rw [List.take_take, ht, List.drop_take, hd, ih]

/-- Chunking a slice whose bounds are multiples of the chunk size is the
corresponding slice of the chunk list. -/
theorem chunksOf_slice {α : Type} (n : Nat) (hn : 0 < n) (i k : Nat) (l : List α) :
    chunksOf n ((l.drop (n * i)).take (n * k)) = ((chunksOf n l).drop i).take k := by
  rw [chunksOf_take n hn, chunksOf_drop n hn]

/-- Aggregating a slice of the mapped chunk list of a homomorphism
computes the homomorphism of the aligned slice of the underlying list. -/
theorem aggregate_map_chunks_slice {α : Type} (f : List α → Option Stats)
    (h0 : f [] = none)
    (hA : ∀ a b : List α, f (a ++ b) = ocombine (f a) (f b))
    (n : Nat) (hn : 0 < n) (i k : Nat) (l : List α) :
    aggregate ((((chunksOf n l).map f).drop i).take k) =
      f ((l.drop (n * i)).take (n * k)) := by
  rw [← List.map_drop, ← List.map_take, aggregate_map_hom f h0 hA,
      chunksOf_drop n hn, chunksOf_take_flatten n hn]

/-- Per-256-sample fine summary: one statistics entry per chunk of 256
raw samples (the last chunk may cover fewer samples). -/
def computeFine (raw : List Int) : List (Option Stats) :=
  (chunksOf 256 raw).map statsOf

/-- Per-65536-sample coarse summary, derived by aggregating runs of 256
fine-summary entries (min of mins, max of maxes, sum-of-squares
accumulation). -/
def computeCoarse (raw : List Int) : List (Option Stats) :=
  (chunksOf 256 (computeFine raw)).map aggregate

/-- Contents of a computed summary cache file: the fine and coarse
summary buffers. -/
structure SummaryData where
  fine : List (Option Stats)
  coarse : List (Option Stats)
deriving DecidableEq, Repr

/-- Computes the whole two-resolution summary of a raw sample span. -/
def summarize (raw : List Int) : SummaryData :=
  ⟨computeFine raw, computeCoarse raw⟩

theorem aggregate_fine_slice (i k : Nat) (raw : List Int) :
    aggregate (((computeFine raw).drop i).take k) =
      statsOf ((raw.drop (256 * i)).take (256 * k)) :=
  aggregate_map_chunks_slice statsOf statsOf_nil statsOf_append 256 (by omega) i k raw

theorem aggregate_coarse_slice (i k : Nat) (raw : List Int) :
    aggregate (((computeCoarse raw).drop i).take k) =
      statsOf ((raw.drop (65536 * i)).take (65536 * k)) := by
  have h1 : aggregate (((computeCoarse raw).drop i).take k) =
      aggregate (((computeFine raw).drop (256 * i)).take (256 * k)) :=
    aggregate_map_chunks_slice aggregate aggregate_nil aggregate_append
      256 (by omega) i k (computeFine raw)
  rw [h1, aggregate_fine_slice]
  have e1 : 256 * (256 * i) = 65536 * i := by ring
  have e2 : 256 * (256 * k) = 65536 * k := by ring
  rw [e1, e2]

/-- Slicing the fine summary at fine-frame indices equals computing the
fine summary of the corresponding aligned raw slice. -/
theorem computeFine_slice (s k : Nat) (raw : List Int) :
    computeFine ((raw.drop (256 * s)).take (256 * k)) =
      ((computeFine raw).drop s).take k := by
  unfold computeFine
  rw [chunksOf_slice 256 (by omega), List.map_take, List.map_drop]

/-- Slicing the coarse summary at coarse-frame indices equals computing
the coarse summary of the corresponding aligned raw slice. -/
theorem computeCoarse_slice (s k : Nat) (raw : List Int) :
    computeCoarse ((raw.drop (65536 * s)).take (65536 * k)) =
      ((computeCoarse raw).drop s).take k := by
  unfold computeCoarse
  have e1 : (65536 : Nat) * s = 256 * (256 * s) := by ring
  have e2 : (65536 : Nat) * k = 256 * (256 * k) := by ring
  rw [e1, e2, computeFine_slice, chunksOf_slice 256 (by omega), List.map_take, List.map_drop]

/-- State of the on-demand summary of a block file: Unavailable
(initial for on-demand blocks), BeingComputed (claimed by the
background worker), Available (terminal success). -/
inductive SummaryState where
  | Unavailable
  | BeingComputed
  | Available
deriving DecidableEq, Repr

/-- Shallow embedding of ODPCMAliasBlockFile.  The fields mirror the
member variables declared in src/src/blockfile/ODPCMAliasBlockFile.h
together with the fields inherited from AliasBlockFile (aliased file
name, alias start, length, channel, cached global min, max, RMS) and
BlockFile (summary file name, reference count, locked flag) that the
declarations in the header use.  mSummaryData models the contents of
the summary cache file on disk: none when that file is missing or
corrupt.  sampleCount becomes Int for the signed display positions and
Nat for the nonnegative alias offsets; machine float fields become
exact rationals. -/
structure BlockFile where
  mAliasedFileName : String
  mAliasStart : Nat
  mLen : Nat
  mAliasChannel : Nat
  mFileName : String
  mMin : Rat
  mMax : Rat
  mRMS : Rat
  mSummaryAvailable : Bool
  mSummaryBeingComputed : Bool
  mHasBeenSaved : Bool
  mLocked : Bool
  mSummaryData : Option SummaryData
  mRefCount : Nat
  mStart : Int
  mClipOffset : Int
deriving DecidableEq, Repr

/-- Reads the mSummaryAvailable flag (done under its dedicated guard in
the source; the lock does not change the returned value). -/
def IsSummaryAvailable (b : BlockFile) : Bool := b.mSummaryAvailable

/-- Inline in the header: returns mSummaryBeingComputed. -/
def IsSummaryBeingComputed (b : BlockFile) : Bool := b.mSummaryBeingComputed

/-- Inline in the header: SetStart assigns the display field mStart. -/
def SetStart (b : BlockFile) (startSample : Int) : BlockFile :=
  { b with mStart := startSample }

/-- Inline in the header: returns mStart. -/
def GetStart (b : BlockFile) : Int := b.mStart

/-- Inline in the header: SetClipOffset assigns the display field
mClipOffset. -/
def SetClipOffset (b : BlockFile) (numSamples : Int) : BlockFile :=
  { b with mClipOffset := numSamples }

/-- Inline in the header: returns mClipOffset. -/
def GetClipOffset (b : BlockFile) : Int := b.mClipOffset

/-- Modelled from the spec: GetLength is inherited from AliasBlockFile,
whose implementation is not under src; per the data model the length of
the immutable alias range is the sample length of the block. -/
def GetLength (b : BlockFile) : Int := (b.mLen : Int)

/-- Inline in the header: mClipOffset + mStart. -/
def GetGlobalStart (b : BlockFile) : Int := b.mClipOffset + b.mStart

/-- Inline in the header: mClipOffset + mStart + GetLength. -/
def GetGlobalEnd (b : BlockFile) : Int := b.mClipOffset + b.mStart + GetLength b

/-- Derived three-state view of the two availability flags, following
the lifecycle of the design: the summary is Available when
mSummaryAvailable is set, otherwise BeingComputed when the background
worker has claimed the block, otherwise Unavailable. -/
def summaryState (b : BlockFile) : SummaryState :=
  if b.mSummaryAvailable then .Available
  else if b.mSummaryBeingComputed then .BeingComputed
  else .Unavailable

/-- Raw sample content of the alias range of a block inside the decoded
aliased file (one channel): the immutable span the block references. -/
def blockRaw (b : BlockFile) (file : List Int) : List Int :=
  (file.drop b.mAliasStart).take b.mLen

/-- Modelled from the spec: ReadData decodes the requested raw sample
range of the block from the aliased file (ODPCMAliasBlockFile.cpp is not
under src).  Reads are confined to the alias range of the block;
`file` is the decoded channel content of the aliased file. -/
def ReadData (b : BlockFile) (file : List Int) (start len : Nat) : List Int :=
  ((blockRaw b file).drop start).take len

/-- Modelled from the spec: the live branch of GetMinMax decodes the
requested raw sample range directly and computes the statistic on the
fly (ODPCMAliasBlockFile.cpp is not under src). -/
def GetMinMaxLive (b : BlockFile) (file : List Int) (start len : Nat) : Option Stats :=
  statsOf (ReadData b file start len)

/-- Modelled from the spec: GetMinMax over a region
(ODPCMAliasBlockFile.cpp is not under src).  When the summary is
available it is served from the cached summary, choosing the coarse
resolution when the range is a whole number of coarse frames and
falling back to aggregating the fine-summary entries covering the
range otherwise; when the summary is not available (or the cache file
is missing) the requested raw range is decoded and the statistic is
computed live. -/
def GetMinMaxRange (b : BlockFile) (file : List Int) (start len : Nat) : Option Stats :=
  if b.mSummaryAvailable then
    match b.mSummaryData with
    | some sd =>
        if start % 65536 = 0 ∧ len % 65536 = 0 then
          aggregate ((sd.coarse.drop (start / 65536)).take (len / 65536))
        else
          aggregate ((sd.fine.drop (start / 256)).take ((start + len + 255) / 256 - start / 256))
    | none => GetMinMaxLive b file start len
  else GetMinMaxLive b file start len

/-- Modelled from the spec: Read256 returns the requested slice of the
fine summary, copied from the cached buffer when available and
otherwise synthesized live by reading and down-sampling the raw
samples (ODPCMAliasBlockFile.cpp is not under src).  start and len are
in fine summary frames. -/
def Read256 (b : BlockFile) (file : List Int) (start len : Nat) :
    Bool × List (Option Stats) :=
  if b.mSummaryAvailable then
    match b.mSummaryData with
    | some sd => (true, (sd.fine.drop start).take len)
    | none => (true, computeFine (ReadData b file (256 * start) (256 * len)))
  else (true, computeFine (ReadData b file (256 * start) (256 * len)))

/-- Modelled from the spec: Read64K returns the requested slice of the
coarse summary, copied from the cached buffer when available and
otherwise synthesized live by reading and down-sampling the raw
samples (ODPCMAliasBlockFile.cpp is not under src).  start and len are
in coarse summary frames. -/
def Read64K (b : BlockFile) (file : List Int) (start len : Nat) :
    Bool × List (Option Stats) :=
  if b.mSummaryAvailable then
    match b.mSummaryData with
    | some sd => (true, (sd.coarse.drop start).take len)
    | none => (true, computeCoarse (ReadData b file (65536 * start) (65536 * len)))
  else (true, computeCoarse (ReadData b file (65536 * start) (65536 * len)))

/-- Modelled from the spec: the background worker claims a block
(ODPCMAliasBlockFile.cpp is not under src).  Exactly one concurrent
computation per block is permitted; a second attempt, or an attempt on
an already available block, is a no-op. -/
def StartComputing (b : BlockFile) : BlockFile :=
  if b.mSummaryAvailable || b.mSummaryBeingComputed then b
  else { b with mSummaryBeingComputed := true }

/-- Modelled from the spec: the worker commits a computed summary
(ODPCMAliasBlockFile.cpp is not under src).  Persistence of the summary
buffer and the statistics happens together with the flag flip; the
summary is populated exactly once, so a commit on a block that is not
being computed, or that is already available, is a no-op. -/
def CommitSummary (b : BlockFile) (smin smax srms : Rat) (sd : SummaryData) :
    BlockFile :=
  if b.mSummaryBeingComputed && !b.mSummaryAvailable then
    { b with mSummaryAvailable := true, mSummaryBeingComputed := false,
             mMin := smin, mMax := smax, mRMS := srms, mSummaryData := some sd }
  else b

/-- Modelled from the spec: computation fails during persistence
(ODPCMAliasBlockFile.cpp is not under src).  The block returns to
Unavailable so the scheduling obligation is retried, never silently
abandoned. -/
def FailComputation (b : BlockFile) : BlockFile :=
  if b.mSummaryBeingComputed && !b.mSummaryAvailable then
    { b with mSummaryBeingComputed := false }
  else b

/-- Modelled from the spec: SetFileName reassigns the summary cache
file name under its guard (ODPCMAliasBlockFile.cpp is not under src). -/
def SetFileName (b : BlockFile) (name : String) : BlockFile :=
  { b with mFileName := name }

/-- Modelled from the spec: thread-safe reference count increment
(ODPCMAliasBlockFile.cpp is not under src). -/
def Ref (b : BlockFile) : BlockFile :=
  { b with mRefCount := b.mRefCount + 1 }

/-- Modelled from the spec: thread-safe reference count decrement
(ODPCMAliasBlockFile.cpp is not under src). -/
def Deref (b : BlockFile) : BlockFile :=
  { b with mRefCount := b.mRefCount - 1 }

/-- Modelled from the spec: CloseLock conditionally locks the block
file when the project closes (ODPCMAliasBlockFile.cpp is not under
src). -/
def CloseLock (b : BlockFile) : BlockFile :=
  { b with mLocked := true }

/-- Runtime operations on a live block file, used to state the
state-machine invariant over arbitrary operation sequences. -/
inductive Op where
  | startComputing
  | commitSummary (smin smax srms : Rat) (sd : SummaryData)
  | failComputation
  | setStart (n : Int)
  | setClipOffset (n : Int)
  | setFileName (s : String)
  | ref
  | deref
  | closeLock
deriving DecidableEq

/-- Applies one runtime operation. -/
def applyOp (b : BlockFile) : Op → BlockFile
  | .startComputing => StartComputing b
  | .commitSummary a c r sd => CommitSummary b a c r sd
  | .failComputation => FailComputation b
  | .setStart n => SetStart b n
  | .setClipOffset n => SetClipOffset b n
  | .setFileName s => SetFileName b s
  | .ref => Ref b
  | .deref => Deref b
  | .closeLock => CloseLock b

/-- Applies a sequence of runtime operations from left to right. -/
def applyOps (b : BlockFile) (ops : List Op) : BlockFile :=
  ops.foldl applyOp b

/-- Modelled from the spec: the structured, versioned persistence
record written by SaveXML (ODPCMAliasBlockFile.cpp is not under src):
aliased file path, alias start, length and channel, the cache file
reference, the availability marker, and the global statistics
(meaningful when the marker is set). -/
structure XMLRecord where
  aliasedFilePath : String
  aliasStart : Nat
  aliasLength : Nat
  aliasChannel : Nat
  cacheFileRef : String
  summaryAvailable : Bool
  recMin : Rat
  recMax : Rat
  recRMS : Rat
deriving DecidableEq, Repr

/-- Modelled from the spec: SaveXML serializes the block to the
persistence record (ODPCMAliasBlockFile.cpp is not under src). -/
def SaveXML (b : BlockFile) : XMLRecord :=
  ⟨b.mAliasedFileName, b.mAliasStart, b.mLen, b.mAliasChannel, b.mFileName,
   b.mSummaryAvailable, b.mMin, b.mMax, b.mRMS⟩

/-- Modelled from the spec: BuildFromXML reconstructs a block from a
persistence record (ODPCMAliasBlockFile.cpp is not under src; the
second constructor declared in the header receives exactly the alias
fields, the statistics and the availability marker).  `cache` is the
summary data found at the cache file reference, none when that file is
missing.  The second component counts the scheduleComputation calls
issued to the background task collaborator: a reconstruction whose
summary is not yet computed re-enters the scheduling queue exactly
once. -/
def BuildFromXML (rec : XMLRecord) (cache : Option SummaryData) :
    BlockFile × Nat :=
  if rec.summaryAvailable then
    (⟨rec.aliasedFilePath, rec.aliasStart, rec.aliasLength, rec.aliasChannel,
      rec.cacheFileRef, rec.recMin, rec.recMax, rec.recRMS,
      true, false, false, false, cache, 1, 0, 0⟩, 0)
  else
    (⟨rec.aliasedFilePath, rec.aliasStart, rec.aliasLength, rec.aliasChannel,
      rec.cacheFileRef, rec.recMin, rec.recMax, rec.recRMS,
      false, false, false, false, none, 1, 0, 0⟩, 1)

/-- Modelled from the spec: recoverAfterIncompleteSave
(ODPCMAliasBlockFile.cpp is not under src).  When the block claims an
available summary and the cache file holds valid summary data, nothing
is done; otherwise (missing or corrupt cache file, or a prior
in-progress computation) the block is reset to Unavailable and its
computation is re-enqueued, counted by the second component. -/
def Recover (b : BlockFile) : BlockFile × Nat :=
  if b.mSummaryAvailable && b.mSummaryData.isSome then (b, 0)
  else ({ b with mSummaryAvailable := false, mSummaryBeingComputed := false }, 1)

/-- Modelled from the spec: Copy produces a new block referencing the
same alias range (ODPCMAliasBlockFile.cpp is not under src).  When the
summary is available the copy starts available sharing the immutable
summary data; otherwise the copy starts Unavailable and is
independently scheduled for computation, counted by the second
component.  The copy never shares a computation in progress. -/
def Copy (b : BlockFile) (fileName : String) : BlockFile × Nat :=
  if b.mSummaryAvailable then
    ({ b with mFileName := fileName, mSummaryBeingComputed := false,
              mHasBeenSaved := false, mLocked := false, mRefCount := 1 }, 0)
  else
    ({ b with mFileName := fileName, mSummaryAvailable := false,
              mSummaryBeingComputed := false, mSummaryData := none,
              mHasBeenSaved := false, mLocked := false, mRefCount := 1 }, 1)

/-- Concrete raw sample span used by the concrete witnesses below: 256
samples, the first is -10, the rest are 0. -/
def sampleRaw : List Int := -10 :: List.replicate 255 0

/-- Concrete block file whose summary is available, with its summary
cache holding exactly the summary of sampleRaw. -/
def sampleAvailableBlock : BlockFile :=
  ⟨"alias.wav", 0, 256, 0, "cache.auf", -10, 0, 5, true, false, false, false,
   some (summarize sampleRaw), 1, 0, 0⟩

/-- Concrete block file whose summary is still pending. -/
def samplePendingBlock : BlockFile :=
  ⟨"alias.wav", 0, 256, 0, "cache.auf", 0, 0, 0, false, false, false, false,
   none, 1, 0, 0⟩

theorem summaryState_available_iff (b : BlockFile) :
    summaryState b = .Available ↔ b.mSummaryAvailable = true := by
  unfold summaryState
  cases hA : b.mSummaryAvailable <;> cases hB : b.mSummaryBeingComputed <;> simp

theorem applyOp_preserves_available (b : BlockFile) (op : Op)
    (h : b.mSummaryAvailable = true) :
    (applyOp b op).mSummaryAvailable = true := by
  cases op <;>
    simp [applyOp, StartComputing, CommitSummary, FailComputation, SetStart,
          SetClipOffset, SetFileName, Ref, Deref, CloseLock, h]

/-- C1: for every block file, the summary state only moves forward along
Unavailable to BeingComputed to Available; the only permitted backward
transition is BeingComputed to Unavailable on a failed computation, and
no sequence of operations ever moves a block out of Available. -/
theorem c1_summary_state_forward (b : BlockFile) (op : Op) (ops : List Op) :
    (summaryState (applyOp b op) = summaryState b ∨
      (summaryState b = .Unavailable ∧ summaryState (applyOp b op) = .BeingComputed) ∨
      (summaryState b = .BeingComputed ∧ summaryState (applyOp b op) = .Available) ∨
      (op = .failComputation ∧ summaryState b = .BeingComputed ∧
        summaryState (applyOp b op) = .Unavailable)) ∧
    (summaryState b = .Available → summaryState (applyOps b ops) = .Available) := by
  constructor
  · cases op <;>
      cases hA : b.mSummaryAvailable <;> cases hB : b.mSummaryBeingComputed <;>
        simp [applyOp, StartComputing, CommitSummary, FailComputation, SetStart,
              SetClipOffset, SetFileName, Ref, Deref, CloseLock, summaryState, hA, hB]
  · intro h
    induction ops generalizing b with
    | nil => simpa [applyOps] using h
    | cons o os ih =>
      have h1 : (applyOp b o).mSummaryAvailable = true :=
        applyOp_preserves_available b o ((summaryState_available_iff b).mp h)
      have h2 : summaryState (applyOp b o) = .Available :=
        (summaryState_available_iff _).mpr h1
      simpa [applyOps, List.foldl_cons] using ih (applyOp b o) h2

/-- Witness for C1 at a concrete available block and a concrete
operation sequence. -/
theorem c1_summary_state_forward_witness :
    summaryState sampleAvailableBlock = .Available ∧
    summaryState (applyOps sampleAvailableBlock
      [.failComputation, .startComputing, .ref]) = .Available :=
  ⟨rfl, (c1_summary_state_forward sampleAvailableBlock .ref
    [.failComputation, .startComputing, .ref]).2 rfl⟩

/-- C2: for every block whose summary is Available with known stats,
serializing it (SaveXML) and reconstructing from the record
(BuildFromXML) yields a block with identical alias file reference,
alias range and channel, reporting IsSummaryAvailable = true with
identical min, max, and rms statistics. -/
theorem c2_roundtrip_available (b : BlockFile)
    (h : IsSummaryAvailable b = true) :
    (BuildFromXML (SaveXML b) b.mSummaryData).1.mAliasedFileName = b.mAliasedFileName ∧
    (BuildFromXML (SaveXML b) b.mSummaryData).1.mAliasStart = b.mAliasStart ∧
    (BuildFromXML (SaveXML b) b.mSummaryData).1.mLen = b.mLen ∧
    (BuildFromXML (SaveXML b) b.mSummaryData).1.mAliasChannel = b.mAliasChannel ∧
    IsSummaryAvailable (BuildFromXML (SaveXML b) b.mSummaryData).1 = true ∧
    (BuildFromXML (SaveXML b) b.mSummaryData).1.mMin = b.mMin ∧
    (BuildFromXML (SaveXML b) b.mSummaryData).1.mMax = b.mMax ∧
    (BuildFromXML (SaveXML b) b.mSummaryData).1.mRMS = b.mRMS := by
  simp only [IsSummaryAvailable] at h
  simp [BuildFromXML, SaveXML, IsSummaryAvailable, h]

/-- Witness for C2 at a concrete available block. -/
theorem c2_roundtrip_available_witness :
    IsSummaryAvailable sampleAvailableBlock = true ∧
    IsSummaryAvailable
      (BuildFromXML (SaveXML sampleAvailableBlock)
        sampleAvailableBlock.mSummaryData).1 = true ∧
    (BuildFromXML (SaveXML sampleAvailableBlock)
        sampleAvailableBlock.mSummaryData).1.mMin = sampleAvailableBlock.mMin :=
  ⟨rfl, (c2_roundtrip_available sampleAvailableBlock rfl).2.2.2.2.1,
    (c2_roundtrip_available sampleAvailableBlock rfl).2.2.2.2.2.1⟩

/-- C5: for every block still Unavailable, serializing it and
reconstructing from the record yields a block with IsSummaryAvailable =
false, and the reconstructed block is re-enqueued with the
background-task scheduler for computation exactly once. -/
theorem c5_roundtrip_pending (b : BlockFile)
    (h : summaryState b = .Unavailable) :
    IsSummaryAvailable (BuildFromXML (SaveXML b) none).1 = false ∧
    (BuildFromXML (SaveXML b) none).2 = 1 := by
  have hA : b.mSummaryAvailable = false := by
    cases hA : b.mSummaryAvailable
    · rfl
    · simp [summaryState, hA] at h
  simp [BuildFromXML, SaveXML, IsSummaryAvailable, hA]

/-- Witness for C5 at a concrete pending block. -/
theorem c5_roundtrip_pending_witness :
    summaryState samplePendingBlock = .Unavailable ∧
    IsSummaryAvailable (BuildFromXML (SaveXML samplePendingBlock) none).1 = false ∧
    (BuildFromXML (SaveXML samplePendingBlock) none).2 = 1 :=
  ⟨rfl, (c5_roundtrip_pending samplePendingBlock rfl).1,
    (c5_roundtrip_pending samplePendingBlock rfl).2⟩

/-- C6: for every block reconstructed from a persisted record with a
missing or corrupt cache file (including records claiming Available,
and records of an in-progress computation, persisted as pending), the
recovery operation resets the block to Unavailable and re-enqueues its
computation exactly once; it never reports the missing summary as
available. -/
theorem c6_recover_resets (rec : XMLRecord) :
    IsSummaryAvailable (Recover (BuildFromXML rec none).1).1 = false ∧
    summaryState (Recover (BuildFromXML rec none).1).1 = .Unavailable ∧
    (Recover (BuildFromXML rec none).1).2 = 1 := by
  cases hr : rec.summaryAvailable <;>
    simp [BuildFromXML, Recover, hr, IsSummaryAvailable, summaryState]

/-- C8: for every block, Copy produces a new block referencing the same
alias range; the copy is available exactly when the source is, an
available copy shares the immutable summary data and statistics and is
not scheduled, an unavailable copy starts Unavailable and is scheduled
for computation exactly once, and a copy is never in the BeingComputed
state. -/
theorem c8_copy_independent (b : BlockFile) (name : String) :
    (Copy b name).1.mAliasedFileName = b.mAliasedFileName ∧
    (Copy b name).1.mAliasStart = b.mAliasStart ∧
    (Copy b name).1.mLen = b.mLen ∧
    (Copy b name).1.mAliasChannel = b.mAliasChannel ∧
    (Copy b name).1.mSummaryAvailable = b.mSummaryAvailable ∧
    (Copy b name).1.mSummaryBeingComputed = false ∧
    summaryState (Copy b name).1 =
      (if b.mSummaryAvailable then .Available else .Unavailable) ∧
    (Copy b name).1.mSummaryData =
      (if b.mSummaryAvailable then b.mSummaryData else none) ∧
    (Copy b name).1.mMin = b.mMin ∧
    (Copy b name).1.mMax = b.mMax ∧
    (Copy b name).1.mRMS = b.mRMS ∧
    (Copy b name).2 = (if b.mSummaryAvailable then 0 else 1) := by
  cases hA : b.mSummaryAvailable <;>
    simp [Copy, summaryState, hA]

/-- C9: SetStart and SetClipOffset modify only the display-position
fields mStart and mClipOffset: every other field, the summary state,
the alias range, and the results of every read operation are
unchanged. -/
theorem c9_display_only (b : BlockFile) (v w : Int) (file : List Int)
    (s l : Nat) :
    (SetStart b v).mStart = v ∧
    (SetClipOffset b w).mClipOffset = w ∧
    (SetStart b v).mAliasedFileName = b.mAliasedFileName ∧
    (SetStart b v).mAliasStart = b.mAliasStart ∧
    (SetStart b v).mLen = b.mLen ∧
    (SetStart b v).mAliasChannel = b.mAliasChannel ∧
    (SetStart b v).mFileName = b.mFileName ∧
    (SetStart b v).mMin = b.mMin ∧
    (SetStart b v).mMax = b.mMax ∧
    (SetStart b v).mRMS = b.mRMS ∧
    (SetStart b v).mSummaryAvailable = b.mSummaryAvailable ∧
    (SetStart b v).mSummaryBeingComputed = b.mSummaryBeingComputed ∧
    (SetStart b v).mHasBeenSaved = b.mHasBeenSaved ∧
    (SetStart b v).mLocked = b.mLocked ∧
    (SetStart b v).mSummaryData = b.mSummaryData ∧
    (SetStart b v).mRefCount = b.mRefCount ∧
    (SetStart b v).mClipOffset = b.mClipOffset ∧
    (SetClipOffset b w).mAliasedFileName = b.mAliasedFileName ∧
    (SetClipOffset b w).mAliasStart = b.mAliasStart ∧
    (SetClipOffset b w).mLen = b.mLen ∧
    (SetClipOffset b w).mAliasChannel = b.mAliasChannel ∧
    (SetClipOffset b w).mFileName = b.mFileName ∧
    (SetClipOffset b w).mMin = b.mMin ∧
    (SetClipOffset b w).mMax = b.mMax ∧
    (SetClipOffset b w).mRMS = b.mRMS ∧
    (SetClipOffset b w).mSummaryAvailable = b.mSummaryAvailable ∧
    (SetClipOffset b w).mSummaryBeingComputed = b.mSummaryBeingComputed ∧
    (SetClipOffset b w).mHasBeenSaved = b.mHasBeenSaved ∧
    (SetClipOffset b w).mLocked = b.mLocked ∧
    (SetClipOffset b w).mSummaryData = b.mSummaryData ∧
    (SetClipOffset b w).mRefCount = b.mRefCount ∧
    (SetClipOffset b w).mStart = b.mStart ∧
    summaryState (SetStart b v) = summaryState b ∧
    summaryState (SetClipOffset b w) = summaryState b ∧
    GetMinMaxRange (SetStart b v) file s l = GetMinMaxRange b file s l ∧
    GetMinMaxRange (SetClipOffset b w) file s l = GetMinMaxRange b file s l ∧
    Read256 (SetStart b v) file s l = Read256 b file s l ∧
    Read256 (SetClipOffset b w) file s l = Read256 b file s l ∧
    Read64K (SetStart b v) file s l = Read64K b file s l ∧
    Read64K (SetClipOffset b w) file s l = Read64K b file s l ∧
    ReadData (SetStart b v) file s l = ReadData b file s l ∧
    ReadData (SetClipOffset b w) file s l = ReadData b file s l ∧
    IsSummaryAvailable (SetStart b v) = IsSummaryAvailable b ∧
    IsSummaryAvailable (SetClipOffset b w) = IsSummaryAvailable b := by
  repeat' apply And.intro
  all_goals rfl

/-- C10: for every block, GetGlobalStart equals GetClipOffset plus
GetStart, GetGlobalEnd equals GetGlobalStart plus GetLength, and their
difference is always the sample length of the block, regardless of
summary state. -/
theorem c10_global_positions (b : BlockFile) :
    GetGlobalStart b = GetClipOffset b + GetStart b ∧
    GetGlobalEnd b = GetGlobalStart b + GetLength b ∧
    GetGlobalEnd b - GetGlobalStart b = GetLength b := by
  unfold GetGlobalStart GetGlobalEnd GetClipOffset GetStart GetLength
  refine ⟨rfl, rfl, by ring⟩

/-- Witness for C8 at a concrete available block and a concrete
pending block. -/
theorem c8_copy_independent_witness :
    (Copy sampleAvailableBlock "copy.auf").1.mSummaryAvailable = true ∧
    (Copy sampleAvailableBlock "copy.auf").2 = 0 ∧
    summaryState (Copy samplePendingBlock "copy2.auf").1 = .Unavailable ∧
    (Copy samplePendingBlock "copy2.auf").2 = 1 :=
  ⟨by rw [(c8_copy_independent sampleAvailableBlock "copy.auf").2.2.2.2.1]; rfl,
   by rw [(c8_copy_independent sampleAvailableBlock "copy.auf").2.2.2.2.2.2.2.2.2.2.2]; rfl,
   by rw [(c8_copy_independent samplePendingBlock "copy2.auf").2.2.2.2.2.2.1]; rfl,
   by rw [(c8_copy_independent samplePendingBlock "copy2.auf").2.2.2.2.2.2.2.2.2.2.2]; rfl⟩

set_option maxRecDepth 8192 in
/-- C4 as stated is refuted: with an available summary, a range that is
not aligned to the fine summary granularity is served by aggregating the
fine entries of the chunks covering it, which widens the statistics.
Here the range (1, 1) lies inside the alias span of a block whose
summary cache matches its raw samples, yet the summary-served result
differs from the live-decoded result. -/
theorem c4_counterexample :
    1 + 1 ≤ sampleAvailableBlock.mLen ∧
    IsSummaryAvailable sampleAvailableBlock = true ∧
    sampleAvailableBlock.mSummaryData =
      some (summarize (blockRaw sampleAvailableBlock sampleRaw)) ∧
    GetMinMaxRange sampleAvailableBlock sampleRaw 1 1 ≠
      GetMinMaxLive sampleAvailableBlock sampleRaw 1 1 := by
  refine ⟨by decide, rfl, by decide, by decide⟩

/-- C4 (amended): for every range fully inside the alias span whose
start and length are aligned to the fine summary granularity of 256
samples, GetMinMax returns the same statistics whether the summary of
the block is Available with a cache matching the raw samples (served
from the cached coarse or fine summary) or not yet available (computed
live by decoding the requested raw sample range). -/
theorem c4_minmax_amended (b : BlockFile) (file : List Int) (start len : Nat)
    (hA : IsSummaryAvailable b = true)
    (hD : b.mSummaryData = some (summarize (blockRaw b file)))
    (hs : 256 ∣ start) (hl : 256 ∣ len)
    (hin : start + len ≤ b.mLen) :
    GetMinMaxRange b file start len = GetMinMaxLive b file start len := by
  simp only [IsSummaryAvailable] at hA
  simp only [GetMinMaxRange, hA, hD, if_true, summarize]
  split_ifs with h64
  · obtain ⟨h64s, h64l⟩ := h64
    obtain ⟨i, rfl⟩ := Nat.dvd_of_mod_eq_zero h64s
    obtain ⟨k, rfl⟩ := Nat.dvd_of_mod_eq_zero h64l
    rw [Nat.mul_div_cancel_left i (by omega), Nat.mul_div_cancel_left k (by omega),
        aggregate_coarse_slice i k (blockRaw b file)]
    rfl
  · obtain ⟨i, rfl⟩ := hs
    obtain ⟨k, rfl⟩ := hl
    have e2 : (256 * i + 256 * k + 255) / 256 - 256 * i / 256 = k := by omega
    have e1 : 256 * i / 256 = i := Nat.mul_div_cancel_left i (by omega)
    rw [e2, e1, aggregate_fine_slice i k (blockRaw b file)]
    rfl

set_option maxRecDepth 8192 in
/-- Witness for the amended C4 at a concrete available block and the
aligned range (0, 256). -/
theorem c4_minmax_amended_witness :
    IsSummaryAvailable sampleAvailableBlock = true ∧
    sampleAvailableBlock.mSummaryData =
      some (summarize (blockRaw sampleAvailableBlock sampleRaw)) ∧
    (256 ∣ 0) ∧ (256 ∣ 256) ∧ 0 + 256 ≤ sampleAvailableBlock.mLen ∧
    GetMinMaxRange sampleAvailableBlock sampleRaw 0 256 =
      GetMinMaxLive sampleAvailableBlock sampleRaw 0 256 :=
  ⟨rfl, by decide, by decide, by decide, by decide,
    c4_minmax_amended sampleAvailableBlock sampleRaw 0 256 rfl (by decide)
      (by decide) (by decide) (by decide)⟩

/-- C7: for every block and every request, the fine-summary read
(Read256) and the coarse-summary read (Read64K) return success together
with exactly the requested slice of the true summary of the raw samples
of the block: copied from the cached summary buffer when the summary is
Available, and otherwise synthesized live by reading and down-sampling
raw samples, so neither ever returns stale or garbage data. -/
theorem c7_summary_reads (b : BlockFile) (file : List Int) (start len : Nat)
    (hD : b.mSummaryAvailable = true →
      b.mSummaryData = some (summarize (blockRaw b file))) :
    (Read256 b file start len).1 = true ∧
    (Read256 b file start len).2 =
      ((computeFine (blockRaw b file)).drop start).take len ∧
    (Read64K b file start len).1 = true ∧
    (Read64K b file start len).2 =
      ((computeCoarse (blockRaw b file)).drop start).take len := by
  cases hA : b.mSummaryAvailable with
  | true => simp [Read256, Read64K, hA, hD hA, summarize]
  | false =>
    simp only [Read256, Read64K, hA, Bool.false_eq_true, if_false, ReadData]
    exact ⟨trivial, computeFine_slice start len (blockRaw b file), trivial,
      computeCoarse_slice start len (blockRaw b file)⟩

set_option maxRecDepth 8192 in
/-- Witness for C7 at a concrete available block and the request
(0, 1) in summary frames. -/
theorem c7_summary_reads_witness :
    (sampleAvailableBlock.mSummaryAvailable = true →
      sampleAvailableBlock.mSummaryData =
        some (summarize (blockRaw sampleAvailableBlock sampleRaw))) ∧
    (Read256 sampleAvailableBlock sampleRaw 0 1).1 = true ∧
    (Read256 sampleAvailableBlock sampleRaw 0 1).2 =
      ((computeFine (blockRaw sampleAvailableBlock sampleRaw)).drop 0).take 1 ∧
    (Read64K sampleAvailableBlock sampleRaw 0 1).1 = true ∧
    (Read64K sampleAvailableBlock sampleRaw 0 1).2 =
      ((computeCoarse (blockRaw sampleAvailableBlock sampleRaw)).drop 0).take 1 :=
  ⟨fun _ => by decide,
    c7_summary_reads sampleAvailableBlock sampleRaw 0 1 (fun _ => by decide)⟩
